import Mathlib

/-!
Verification of the Remote Config condition evaluator
(`ConditionEvaluator` and its helper functions in the source file
holding `evaluateConditions`, `evaluateCondition`, `evaluateOrCondition`,
`evaluateAndCondition`, `evaluatePercentCondition`,
`evaluateCustomSignalCondition`, `compareStrings`, `compareNumbers` and
`compareSemanticVersions`).

The evaluator is a pure tree walk; the only effects in the source are
a possible JavaScript exception (thrown by `new RegExp(target)` on an
invalid pattern) and calls to two pinned external functions
(`farmhash.fingerprint64` and the regular-expression engine).  The
embedding therefore returns `Except Unit Bool` (an `.error` value models
a thrown exception propagating out of the call) and is parameterised by

* `fingerprint64 : String → Nat` — the 64-bit fingerprint hash (its
  value is reduced mod 2^64 at the use site, so any function is a
  faithful instance of the external dependency), and
* `regexCompile : String → Option (String → Bool)` — regular-expression
  compilation; `none` models a pattern whose `new RegExp` construction
  throws a `SyntaxError`, `some test` a compiled regex with its `test`
  method.

JavaScript numbers are modelled as exact rationals extended with the two
infinities (`JSNumber`); `NaN` is represented as `Option.none` at the
points where the source checks `isNaN`.  This idealises IEEE doubles by
exact arithmetic; every concrete input appearing in a theorem below is
exactly representable, so the idealisation is invisible there.
-/

/-- JavaScript number values that are not `NaN`: an exact rational or one
of the two infinities.  (`NaN` is modelled as `none : Option JSNumber` at
the `isNaN` check sites of the source.) -/
inductive JSNumber where
  | val (q : ℚ)
  | posInf
  | negInf
deriving DecidableEq

/-- JavaScript `<` on non-`NaN` numbers. -/
def JSNumber.ltb : JSNumber → JSNumber → Bool
  | .val a, .val b => decide (a < b)
  | .val _, .posInf => true
  | .negInf, .val _ => true
  | .negInf, .posInf => true
  | _, _ => false

/-- The `actual < target ? -1 : actual > target ? 1 : 0` computation of
the source (`compareNumbers`). -/
def jsNumCompare (actual target : JSNumber) : Int :=
  if actual.ltb target then -1 else if target.ltb actual then 1 else 0

/-- A value stored in the evaluation context: the source type is
`string | number`. -/
inductive SignalValue where
  | str (s : String)
  | num (x : JSNumber)
deriving DecidableEq

/-- JavaScript whitespace characters (the `StrWhiteSpaceChar` set used by
`String.prototype.trim` and by `ToNumber` on strings): tab, LF, VT, FF,
CR, space, NBSP, line separator, paragraph separator, BOM. -/
def isJsWhitespace (c : Char) : Bool :=
  c = ' ' || c = Char.ofNat 9 || c = Char.ofNat 10 || c = Char.ofNat 11 ||
  c = Char.ofNat 12 || c = Char.ofNat 13 || c = Char.ofNat 160 ||
  c = Char.ofNat 8232 || c = Char.ofNat 8233 || c = Char.ofNat 65279

/-- Strip leading and trailing JavaScript whitespace from a character
list (JavaScript `String.prototype.trim`). -/
def jsTrim (cs : List Char) : List Char :=
  ((cs.dropWhile isJsWhitespace).reverse.dropWhile isJsWhitespace).reverse

/-- `jsTrim` packaged on `String`. -/
def jsTrimString (s : String) : String := String.mk (jsTrim s.data)

/-- Decimal digit value accumulation: `digitsToNat acc ds` folds the
digit characters `ds` onto `acc` in base 10. -/
def digitsToNat (acc : Nat) : List Char → Nat
  | [] => acc
  | c :: rest => digitsToNat (acc * 10 + (c.toNat - 48)) rest

/-- Value of a hexadecimal digit character (only meaningful on
`0-9a-fA-F`). -/
def hexDigitVal (c : Char) : Nat :=
  if c.isDigit then c.toNat - 48
  else if 'a' ≤ c ∧ c ≤ 'f' then c.toNat - 87
  else c.toNat - 55

/-- Is `c` a digit of the given radix (2, 8 or 16)? -/
def isRadixDigit (radix : Nat) (c : Char) : Bool :=
  if radix = 16 then c.isDigit || ('a' ≤ c && c ≤ 'f') || ('A' ≤ c && c ≤ 'F')
  else if radix = 8 then '0' ≤ c && c ≤ '7'
  else c = '0' || c = '1'

/-- Parse a non-empty run of radix digits covering the whole list;
`none` models `NaN`. -/
def parseRadixDigits (radix : Nat) (cs : List Char) : Option Nat :=
  if cs.isEmpty then none
  else if cs.all (isRadixDigit radix) then
    some (cs.foldl (fun acc c => acc * radix + hexDigitVal c) 0)
  else none

/-- Parse the exponent tail of a decimal literal: the empty list means
exponent `0`; otherwise `e`/`E`, an optional sign and a non-empty digit
run covering the rest of the list.  `none` models `NaN`. -/
def parseExponent : List Char → Option Int
  | [] => some 0
  | c :: rest =>
    if c = 'e' || c = 'E' then
      match rest with
      | '+' :: ds => if ds.isEmpty || !ds.all Char.isDigit then none else some (digitsToNat 0 ds)
      | '-' :: ds => if ds.isEmpty || !ds.all Char.isDigit then none else some (-(digitsToNat 0 ds : Int))
      | ds => if ds.isEmpty || !ds.all Char.isDigit then none else some (digitsToNat 0 ds)
    else none

/-- Assemble integer digits, fraction digits and an exponent into an
exact rational: the value
`(intPart + fracPart / 10 ^ fracPart.length) * 10 ^ e`, built as one
normalised fraction over powers of 10. -/
def decimalValue (intPart fracPart : List Char) (e : Int) : ℚ :=
  let base : Int :=
    (digitsToNat 0 intPart : Int) * 10 ^ fracPart.length + (digitsToNat 0 fracPart : Int)
  if 0 ≤ e then mkRat (base * 10 ^ e.toNat) (10 ^ fracPart.length)
  else mkRat base (10 ^ fracPart.length * 10 ^ (-e).toNat)

/-- Parse an unsigned `StrDecimalLiteral` body (`digits`, `digits.`,
`digits.digits`, `.digits`, each with an optional exponent part) that
must cover the whole list; `none` models `NaN`. -/
def parseUnsignedDecimal (cs : List Char) : Option ℚ :=
  let intPart := cs.takeWhile Char.isDigit
  let rest1 := cs.dropWhile Char.isDigit
  match rest1 with
  | '.' :: rest2 =>
    let fracPart := rest2.takeWhile Char.isDigit
    let rest3 := rest2.dropWhile Char.isDigit
    if intPart.isEmpty && fracPart.isEmpty then none
    else (parseExponent rest3).map (decimalValue intPart fracPart)
  | _ =>
    if intPart.isEmpty then none
    else (parseExponent rest1).map (decimalValue intPart [])

/-- Parse an unsigned decimal literal or `Infinity`, with the sign
already split off. -/
def parseSignedBody (neg : Bool) (cs : List Char) : Option JSNumber :=
  if cs = "Infinity".data then some (if neg then .negInf else .posInf)
  else (parseUnsignedDecimal cs).map (fun q => .val (if neg then -q else q))

/-- Modelled JS builtin: `Number(string)` (ECMAScript `ToNumber` applied
to a string).  Whitespace is trimmed; the empty remainder yields `+0`;
`0x`/`0o`/`0b` literals are unsigned; otherwise an optional sign is
followed by `Infinity` or a decimal literal.  `none` models `NaN`. -/
def jsStringToNumber (s : String) : Option JSNumber :=
  match jsTrim s.data with
  | [] => some (.val 0)
  | '0' :: 'x' :: rest => (parseRadixDigits 16 rest).map (fun n => .val n)
  | '0' :: 'X' :: rest => (parseRadixDigits 16 rest).map (fun n => .val n)
  | '0' :: 'o' :: rest => (parseRadixDigits 8 rest).map (fun n => .val n)
  | '0' :: 'O' :: rest => (parseRadixDigits 8 rest).map (fun n => .val n)
  | '0' :: 'b' :: rest => (parseRadixDigits 2 rest).map (fun n => .val n)
  | '0' :: 'B' :: rest => (parseRadixDigits 2 rest).map (fun n => .val n)
  | '+' :: rest => parseSignedBody false rest
  | '-' :: rest => parseSignedBody true rest
  | cs => parseSignedBody false cs

/-- Decimal digits of a natural number, via explicit fuel (so the
definition is structural and kernel-reducible).  `natDigits (n+1) n`
gives the digits of `n`. -/
def natDigits (fuel : Nat) (n : Nat) : List Char :=
  match fuel with
  | 0 => []
  | fuel + 1 =>
    if n < 10 then [Char.ofNat (48 + n)]
    else natDigits fuel (n / 10) ++ [Char.ofNat (48 + n % 10)]

/-- Decimal rendering of an integer. -/
def intToString (i : Int) : String :=
  match i with
  | .ofNat n => String.mk (natDigits (n + 1) n)
  | .negSucc n => String.mk ('-' :: natDigits (n + 2) (n + 1))

/-- Modelled JS builtin: `String(number)`.  Exact for integers and the
infinities (the only numeric values any theorem below stringifies);
non-integral rationals are rendered as `num/den`, an idealisation of the
shortest-roundtrip double printing that no claim exercises. -/
def jsNumToString : JSNumber → String
  | .posInf => "Infinity"
  | .negInf => "-Infinity"
  | .val q =>
    if q.den = 1 then intToString q.num
    else intToString q.num ++ "/" ++ intToString q.den

/-- Modelled JS builtin: `String(value)` on a `string | number` value. -/
def jsToString : SignalValue → String
  | .str s => s
  | .num x => jsNumToString x

/-- Modelled JS builtin: `Number(value)` on a `string | number` value. -/
def jsToNumber : SignalValue → Option JSNumber
  | .num x => some x
  | .str s => jsStringToNumber s

/-- Does the second list start with the first one? -/
def leadsWith : List Char → List Char → Bool
  | [], _ => true
  | _ :: _, [] => false
  | p :: ps, c :: cs => p = c && leadsWith ps cs

/-- Does `s` contain `pat` as a contiguous subsequence?  (JavaScript
`String.prototype.includes`.) -/
def containsSeq (pat : List Char) : List Char → Bool
  | [] => pat.isEmpty
  | c :: rest => leadsWith pat (c :: rest) || containsSeq pat rest

/-- JavaScript `actual.includes(target)`. -/
def jsStringIncludes (actual target : String) : Bool :=
  containsSeq target.data actual.data

/-- JavaScript `str.split(".")` on character lists: split at every dot,
keeping empty segments (so the result is never empty). -/
def splitOnDot : List Char → List (List Char)
  | [] => [[]]
  | c :: rest =>
    match splitOnDot rest with
    | [] => [[c]]
    | seg :: segs => if c = '.' then [] :: seg :: segs else (c :: seg) :: segs

/-- The enum `PercentConditionOperator` of the API surface. -/
inductive PercentConditionOperator where
  | LESS_OR_EQUAL
  | GREATER_THAN
  | BETWEEN
  | UNKNOWN
deriving DecidableEq

/-- The interface `MicroPercentRange`: both bounds optional. -/
structure MicroPercentRange where
  microPercentLowerBound : Option Nat := none
  microPercentUpperBound : Option Nat := none
deriving DecidableEq

/-- The interface `PercentCondition`: every field optional (the source
cannot assume undefined fields have default values). -/
structure PercentCondition where
  percentOperator : Option PercentConditionOperator := none
  seed : Option String := none
  microPercent : Option Nat := none
  microPercentRange : Option MicroPercentRange := none
deriving DecidableEq

/-- The enum `CustomSignalOperator` of the API surface. -/
inductive CustomSignalOperator where
  | STRING_CONTAINS
  | STRING_DOES_NOT_CONTAIN
  | STRING_EXACTLY_MATCHES
  | STRING_CONTAINS_REGEX
  | NUMERIC_LESS_THAN
  | NUMERIC_LESS_EQUAL
  | NUMERIC_EQUAL
  | NUMERIC_NOT_EQUAL
  | NUMERIC_GREATER_THAN
  | NUMERIC_GREATER_EQUAL
  | SEMANTIC_VERSION_LESS_THAN
  | SEMANTIC_VERSION_LESS_EQUAL
  | SEMANTIC_VERSION_EQUAL
  | SEMANTIC_VERSION_NOT_EQUAL
  | SEMANTIC_VERSION_GREATER_THAN
  | SEMANTIC_VERSION_GREATER_EQUAL
deriving DecidableEq

/-- The interface `CustomSignalCondition`: every field optional. -/
structure CustomSignalCondition where
  customSignalOperator : Option CustomSignalOperator := none
  customSignalKey : Option String := none
  targetCustomSignalValues : Option (List String) := none
deriving DecidableEq

/-- The `EvaluationContext`: one string-keyed JavaScript object holding
`string | number` values (the distinguished `randomizationId` property
lives in the same object). -/
def EvaluationContext := List (String × SignalValue)

/-- Property lookup `context[key]` (first binding wins, as keys of a JS
object are unique). -/
def lookupContext : EvaluationContext → String → Option SignalValue
  | [], _ => none
  | (k, v) :: rest, key => if k = key then some v else lookupContext rest key

/-- The `context.randomizationId` accessor: present only when the
`randomizationId` property holds a string (its declared type). -/
def contextRandomizationId (context : EvaluationContext) : Option String :=
  match lookupContext context "randomizationId" with
  | some (.str s) => some s
  | _ => none

/-- The `targetValues.some((target) => predicateFn(target, actual))` loop
of `compareStrings`; a thrown exception inside the predicate propagates
out of `Array.prototype.some`. -/
def someTarget (predicateFn : String → String → Except Unit Bool) (actual : String) :
    List String → Except Unit Bool
  | [] => .ok false
  | target :: rest =>
    match predicateFn target actual with
    | .error e => .error e
    | .ok true => .ok true
    | .ok false => someTarget predicateFn actual rest

/-- Source `compareStrings`: stringify the actual value, return whether
any target satisfies the predicate. -/
def compareStrings (targetValues : List String) (actualValue : SignalValue)
    (predicateFn : String → String → Except Unit Bool) : Except Unit Bool :=
  someTarget predicateFn (jsToString actualValue) targetValues

/-- Source `compareNumbers`: coerce both sides with `Number`, return
`false` if either is `NaN`, otherwise apply the predicate to the sign of
`actual - target`. -/
def compareNumbers (actualValue : SignalValue) (targetValue : String)
    (predicateFn : Int → Bool) : Bool :=
  match jsStringToNumber targetValue, jsToNumber actualValue with
  | some target, some actual => predicateFn (jsNumCompare actual target)
  | _, _ => false

/-- The index loop of `compareSemanticVersions`, after the `NaN` filter:
walk both segment lists; a missing segment on one side decides the order
(`-1` when the left side ran out first, `1` when the right side did,
`0` at simultaneous exhaustion); at the first differing segment return
`-1`/`1` by the numeric order. -/
def semverCompare : List JSNumber → List JSNumber → Int
  | [], [] => 0
  | [], _ :: _ => -1
  | _ :: _, [] => 1
  | a :: as, b :: bs => if a = b then semverCompare as bs else if a.ltb b then -1 else 1

/-- Source `compareSemanticVersions`: split both sides on `.`, coerce
every segment with `Number`, return `false` if any segment is `NaN`,
otherwise apply the predicate to the segmentwise comparison result. -/
def compareSemanticVersions (actualValue : SignalValue) (targetValue : String)
    (predicateFn : Int → Bool) : Bool :=
  let version1 := (splitOnDot (jsToString actualValue).data).map
    (fun seg => jsStringToNumber (String.mk seg))
  let version2 := (splitOnDot targetValue.data).map
    (fun seg => jsStringToNumber (String.mk seg))
  if version1.any (fun x => x.isNone) || version2.any (fun x => x.isNone) then false
  else predicateFn (semverCompare (version1.filterMap id) (version2.filterMap id))

/-- Interpret a 64-bit unsigned value as a two's-complement signed
integer.  This is `long.fromString(bigUint.toString())`: the decimal
digits of the unsigned fingerprint are folded into a 64-bit `Long` with
wraparound, so values at or above 2^63 come out negative. -/
def toSigned64 (u : Nat) : Int :=
  let v : Int := (u % 18446744073709551616 : Nat)
  if v < 9223372036854775808 then v else v - 18446744073709551616

/-- The `Long.negate` operation: two's-complement negation, which maps
the minimum 64-bit value to itself. -/
def longNegate (x : Int) : Int :=
  if x = -9223372036854775808 then x else -x

/-- The `seedPrefix` computation of `evaluatePercentCondition`:
`seed && seed.length > 0 ? seed + "." : ""`. -/
def seedPrefixOf : Option String → String
  | some seed => if seed.length > 0 then seed ++ "." else ""
  | none => ""

/-- Lines 152-165 of the source regrouped: hash `seedPrefix +
randomizationId`, read the fingerprint as a signed 64-bit `Long`, negate
if negative (`Long` has no absolute-value method, and negation wraps at
the minimum value), then take `mod 100 * 1_000_000`, a truncated
(sign-of-dividend) remainder. -/
def instanceMicroPercentileOf (fingerprint64 : String → Nat)
    (seed : Option String) (randomizationId : String) : Int :=
  let stringToHash := seedPrefixOf seed ++ randomizationId
  let hash0 := toSigned64 (fingerprint64 stringToHash)
  let hash64 := if hash0 < 0 then longNegate hash0 else hash0
  Int.tmod hash64 100000000

/-- Source `evaluatePercentCondition`.  `!context.randomizationId`
rejects both an absent property and the empty string; a missing
`percentOperator` rejects; `microPercent` and the two range bounds
default to 0; then the operator compares the instance micro-percentile.
Percent evaluation never throws, so it stays `Bool`-valued. -/
def evaluatePercentCondition (fingerprint64 : String → Nat)
    (percentCondition : PercentCondition) (context : EvaluationContext) : Bool :=
  match contextRandomizationId context with
  | none => false
  | some randomizationId =>
    if randomizationId = "" then false
    else
      match percentCondition.percentOperator with
      | none => false
      | some percentOperator =>
        let normalizedMicroPercent : Int := (percentCondition.microPercent.getD 0 : Nat)
        let normalizedMicroPercentUpperBound : Int :=
          ((percentCondition.microPercentRange.bind
            MicroPercentRange.microPercentUpperBound).getD 0 : Nat)
        let normalizedMicroPercentLowerBound : Int :=
          ((percentCondition.microPercentRange.bind
            MicroPercentRange.microPercentLowerBound).getD 0 : Nat)
        let instanceMicroPercentile :=
          instanceMicroPercentileOf fingerprint64 percentCondition.seed randomizationId
        match percentOperator with
        | .LESS_OR_EQUAL => decide (instanceMicroPercentile ≤ normalizedMicroPercent)
        | .GREATER_THAN => decide (instanceMicroPercentile > normalizedMicroPercent)
        | .BETWEEN =>
          decide (instanceMicroPercentile > normalizedMicroPercentLowerBound) &&
          decide (instanceMicroPercentile ≤ normalizedMicroPercentUpperBound)
        | .UNKNOWN => false

/-- Source `evaluateCustomSignalCondition`.  The three fields must be
present (`!customSignalKey` also rejects the empty string, as `""` is
falsy), the target list non-empty, and the signal key bound in the
context; then dispatch on the operator.  The `STRING_CONTAINS_REGEX`
branch constructs `new RegExp(target)` with no try/catch, so an invalid
pattern throws (`.error`) out of the whole evaluation. -/
def evaluateCustomSignalCondition (regexCompile : String → Option (String → Bool))
    (customSignalCondition : CustomSignalCondition) (context : EvaluationContext) :
    Except Unit Bool :=
  match customSignalCondition.customSignalOperator,
        customSignalCondition.customSignalKey,
        customSignalCondition.targetCustomSignalValues with
  | some customSignalOperator, some customSignalKey, some targetCustomSignalValues =>
    if customSignalKey = "" then .ok false
    else if targetCustomSignalValues.length = 0 then .ok false
    else
      match lookupContext context customSignalKey with
      | none => .ok false
      | some actualCustomSignalValue =>
        match customSignalOperator with
        | .STRING_CONTAINS =>
          compareStrings targetCustomSignalValues actualCustomSignalValue
            (fun target actual => .ok (jsStringIncludes actual target))
        | .STRING_DOES_NOT_CONTAIN =>
          (compareStrings targetCustomSignalValues actualCustomSignalValue
            (fun target actual => .ok (jsStringIncludes actual target))).map (fun b => !b)
        | .STRING_EXACTLY_MATCHES =>
          compareStrings targetCustomSignalValues actualCustomSignalValue
            (fun target actual => .ok (jsTrimString actual = jsTrimString target))
        | .STRING_CONTAINS_REGEX =>
          compareStrings targetCustomSignalValues actualCustomSignalValue
            (fun target actual =>
              match regexCompile target with
              | none => .error ()
              | some test => .ok (test actual))
        | .NUMERIC_LESS_THAN =>
          .ok (compareNumbers actualCustomSignalValue (targetCustomSignalValues.headD "")
            (fun r => decide (r < 0)))
        | .NUMERIC_LESS_EQUAL =>
          .ok (compareNumbers actualCustomSignalValue (targetCustomSignalValues.headD "")
            (fun r => decide (r ≤ 0)))
        | .NUMERIC_EQUAL =>
          .ok (compareNumbers actualCustomSignalValue (targetCustomSignalValues.headD "")
            (fun r => decide (r = 0)))
        | .NUMERIC_NOT_EQUAL =>
          .ok (compareNumbers actualCustomSignalValue (targetCustomSignalValues.headD "")
            (fun r => decide (r ≠ 0)))
        | .NUMERIC_GREATER_THAN =>
          .ok (compareNumbers actualCustomSignalValue (targetCustomSignalValues.headD "")
            (fun r => decide (r > 0)))
        | .NUMERIC_GREATER_EQUAL =>
          .ok (compareNumbers actualCustomSignalValue (targetCustomSignalValues.headD "")
            (fun r => decide (r ≥ 0)))
        | .SEMANTIC_VERSION_LESS_THAN =>
          .ok (compareSemanticVersions actualCustomSignalValue
            (targetCustomSignalValues.headD "") (fun r => decide (r < 0)))
        | .SEMANTIC_VERSION_LESS_EQUAL =>
          .ok (compareSemanticVersions actualCustomSignalValue
            (targetCustomSignalValues.headD "") (fun r => decide (r ≤ 0)))
        | .SEMANTIC_VERSION_EQUAL =>
          .ok (compareSemanticVersions actualCustomSignalValue
            (targetCustomSignalValues.headD "") (fun r => decide (r = 0)))
        | .SEMANTIC_VERSION_NOT_EQUAL =>
          .ok (compareSemanticVersions actualCustomSignalValue
            (targetCustomSignalValues.headD "") (fun r => decide (r ≠ 0)))
        | .SEMANTIC_VERSION_GREATER_THAN =>
          .ok (compareSemanticVersions actualCustomSignalValue
            (targetCustomSignalValues.headD "") (fun r => decide (r > 0)))
        | .SEMANTIC_VERSION_GREATER_EQUAL =>
          .ok (compareSemanticVersions actualCustomSignalValue
            (targetCustomSignalValues.headD "") (fun r => decide (r ≥ 0)))
  | _, _, _ => .ok false

mutual
/-- The interface `OneOfCondition`: an object whose six variant fields
are all optional (the fields named `true` and `false` in the source are
`tru` and `fls` here, as those are Lean keywords). -/
inductive OneOfCondition where
  | mk (orCondition : Option OrCondition) (andCondition : Option AndCondition)
       (tru : Option Bool) (fls : Option Bool)
       (percent : Option PercentCondition) (customSignal : Option CustomSignalCondition)

/-- The interface `OrCondition`: an optional list of subconditions. -/
inductive OrCondition where
  | mk (conditions : Option (List OneOfCondition))

/-- The interface `AndCondition`: an optional list of subconditions. -/
inductive AndCondition where
  | mk (conditions : Option (List OneOfCondition))
end

/-- Field accessor for the `orCondition` property. -/
def OneOfCondition.orCondition : OneOfCondition → Option OrCondition
  | .mk orC _ _ _ _ _ => orC

/-- Field accessor for the `andCondition` property. -/
def OneOfCondition.andCondition : OneOfCondition → Option AndCondition
  | .mk _ andC _ _ _ _ => andC

/-- Field accessor for the `conditions` property of an `OrCondition`. -/
def OrCondition.conditions : OrCondition → Option (List OneOfCondition)
  | .mk conds => conds

/-- Field accessor for the `conditions` property of an `AndCondition`. -/
def AndCondition.conditions : AndCondition → Option (List OneOfCondition)
  | .mk conds => conds

mutual
/-- Source `evaluateCondition` (with `nestingLevel` defaulting to 0 at
call sites): return `false` at or beyond the recursion cap of 10,
otherwise dispatch on the first populated variant field in the source's
priority order `orCondition`, `andCondition`, `true`, `false`,
`percent`, `customSignal`; with none populated, return `false`.  The
`true`/`false` leaves fire only when their boolean payload is truthy,
exactly as `if (condition.true)` does. -/
def evaluateCondition (regexCompile : String → Option (String → Bool))
    (fingerprint64 : String → Nat) (condition : OneOfCondition)
    (context : EvaluationContext) (nestingLevel : Nat) : Except Unit Bool :=
  if nestingLevel ≥ 10 then .ok false
  else
    match condition with
    | .mk orC andC tru fls percent customSignal =>
      match orC with
      | some orCondition =>
        evaluateOrCondition regexCompile fingerprint64 orCondition context (nestingLevel + 1)
      | none =>
        match andC with
        | some andCondition =>
          evaluateAndCondition regexCompile fingerprint64 andCondition context (nestingLevel + 1)
        | none =>
          if tru = some true then .ok true
          else if fls = some true then .ok false
          else
            match percent with
            | some percentCondition =>
              .ok (evaluatePercentCondition fingerprint64 percentCondition context)
            | none =>
              match customSignal with
              | some customSignalCondition =>
                evaluateCustomSignalCondition regexCompile customSignalCondition context
              | none => .ok false

/-- Source `evaluateOrCondition`: `orCondition.conditions || []` (an
absent list behaves as the empty list, whose loop body never runs and
which therefore returns `false` directly), then the short-circuiting
loop `goOr`. -/
def evaluateOrCondition (regexCompile : String → Option (String → Bool))
    (fingerprint64 : String → Nat) (orCondition : OrCondition)
    (context : EvaluationContext) (nestingLevel : Nat) : Except Unit Bool :=
  match orCondition with
  | .mk (some subConditions) => goOr regexCompile fingerprint64 subConditions context nestingLevel
  | .mk none => .ok false

/-- Source `evaluateAndCondition`: as `evaluateOrCondition`, returning
`true` on an absent (hence empty) list. -/
def evaluateAndCondition (regexCompile : String → Option (String → Bool))
    (fingerprint64 : String → Nat) (andCondition : AndCondition)
    (context : EvaluationContext) (nestingLevel : Nat) : Except Unit Bool :=
  match andCondition with
  | .mk (some subConditions) => goAnd regexCompile fingerprint64 subConditions context nestingLevel
  | .mk none => .ok true

/-- The `for` loop of `evaluateOrCondition`: evaluate each subcondition
at `nestingLevel + 1`, short-circuit on the first `true` (a thrown
exception propagates), return `false` once the list is exhausted. -/
def goOr (regexCompile : String → Option (String → Bool))
    (fingerprint64 : String → Nat) (subConditions : List OneOfCondition)
    (context : EvaluationContext) (nestingLevel : Nat) : Except Unit Bool :=
  match subConditions with
  | [] => .ok false
  | subCondition :: rest =>
    match evaluateCondition regexCompile fingerprint64 subCondition context (nestingLevel + 1) with
    | .error e => .error e
    | .ok true => .ok true
    | .ok false => goOr regexCompile fingerprint64 rest context nestingLevel

/-- The `for` loop of `evaluateAndCondition`: short-circuit on the first
`false`, return `true` once the list is exhausted. -/
def goAnd (regexCompile : String → Option (String → Bool))
    (fingerprint64 : String → Nat) (subConditions : List OneOfCondition)
    (context : EvaluationContext) (nestingLevel : Nat) : Except Unit Bool :=
  match subConditions with
  | [] => .ok true
  | subCondition :: rest =>
    match evaluateCondition regexCompile fingerprint64 subCondition context (nestingLevel + 1) with
    | .error e => .error e
    | .ok false => .ok false
    | .ok true => goAnd regexCompile fingerprint64 rest context nestingLevel
end

/-- The interface `NamedCondition`. -/
structure NamedCondition where
  name : String
  condition : OneOfCondition

/-- JavaScript `Map.prototype.set`: overwriting an existing key keeps
its original insertion position; a fresh key is appended. -/
def mapSet (m : List (String × Bool)) (k : String) (v : Bool) : List (String × Bool) :=
  if m.any (fun p => p.1 = k) then
    m.map (fun p => if p.1 = k then (p.1, v) else p)
  else m ++ [(k, v)]

/-- The `for`-of loop of `evaluateConditions` over the named conditions,
threading the insertion-ordered map; an exception thrown by any
evaluation aborts the whole call. -/
def evaluateConditionsGo (regexCompile : String → Option (String → Bool))
    (fingerprint64 : String → Nat) (context : EvaluationContext) :
    List NamedCondition → List (String × Bool) → Except Unit (List (String × Bool))
  | [], acc => .ok acc
  | namedCondition :: rest, acc =>
    match evaluateCondition regexCompile fingerprint64 namedCondition.condition context 0 with
    | .error e => .error e
    | .ok b => evaluateConditionsGo regexCompile fingerprint64 context rest
        (mapSet acc namedCondition.name b)

/-- Source `evaluateConditions`: evaluate each named condition at depth
0 in input order into an insertion-ordered map (modelled as an ordered
association list). -/
def evaluateConditions (regexCompile : String → Option (String → Bool))
    (fingerprint64 : String → Nat) (namedConditions : List NamedCondition)
    (context : EvaluationContext) : Except Unit (List (String × Bool)) :=
  evaluateConditionsGo regexCompile fingerprint64 context namedConditions []

/-- Spec-side reference: left-to-right short-circuit disjunction over a
list of evaluation outcomes (`Or` child semantics: first `true` wins,
exceptions propagate, exhaustion gives `false`). -/
def foldOr : List (Except Unit Bool) → Except Unit Bool
  | [] => .ok false
  | r :: rest =>
    match r with
    | .error e => .error e
    | .ok true => .ok true
    | .ok false => foldOr rest

/-- Spec-side reference: left-to-right short-circuit conjunction over a
list of evaluation outcomes (`And` child semantics). -/
def foldAnd : List (Except Unit Bool) → Except Unit Bool
  | [] => .ok true
  | r :: rest =>
    match r with
    | .error e => .error e
    | .ok false => .ok false
    | .ok true => foldAnd rest

mutual
/-- Spec-side reference evaluator: `evaluateCondition` with the
recursion cap removed (same dispatch, same leaves, no depth counter).
Used to state that the capped evaluator agrees with the uncapped
semantics on trees of bounded height. -/
def evalUncapped (regexCompile : String → Option (String → Bool))
    (fingerprint64 : String → Nat) (condition : OneOfCondition)
    (context : EvaluationContext) : Except Unit Bool :=
  match condition with
  | .mk orC andC tru fls percent customSignal =>
    match orC with
    | some (.mk (some subConditions)) => goOrUncapped regexCompile fingerprint64 subConditions context
    | some (.mk none) => .ok false
    | none =>
      match andC with
      | some (.mk (some subConditions)) => goAndUncapped regexCompile fingerprint64 subConditions context
      | some (.mk none) => .ok true
      | none =>
        if tru = some true then .ok true
        else if fls = some true then .ok false
        else
          match percent with
          | some percentCondition =>
            .ok (evaluatePercentCondition fingerprint64 percentCondition context)
          | none =>
            match customSignal with
            | some customSignalCondition =>
              evaluateCustomSignalCondition regexCompile customSignalCondition context
            | none => .ok false

/-- Uncapped `Or` loop. -/
def goOrUncapped (regexCompile : String → Option (String → Bool))
    (fingerprint64 : String → Nat) (subConditions : List OneOfCondition)
    (context : EvaluationContext) : Except Unit Bool :=
  match subConditions with
  | [] => .ok false
  | subCondition :: rest =>
    match evalUncapped regexCompile fingerprint64 subCondition context with
    | .error e => .error e
    | .ok true => .ok true
    | .ok false => goOrUncapped regexCompile fingerprint64 rest context

/-- Uncapped `And` loop. -/
def goAndUncapped (regexCompile : String → Option (String → Bool))
    (fingerprint64 : String → Nat) (subConditions : List OneOfCondition)
    (context : EvaluationContext) : Except Unit Bool :=
  match subConditions with
  | [] => .ok true
  | subCondition :: rest =>
    match evalUncapped regexCompile fingerprint64 subCondition context with
    | .error e => .error e
    | .ok false => .ok false
    | .ok true => goAndUncapped regexCompile fingerprint64 rest context
end

mutual
/-- Nesting height of a condition tree: number of `Or`/`And` levels on
the deepest path (leaves, including `Or`/`And` nodes with an absent
child list, count the node itself only). -/
def conditionHeight : OneOfCondition → Nat
  | .mk orC andC _ _ _ _ =>
    match orC with
    | some (.mk (some subConditions)) => 1 + heightList subConditions
    | some (.mk none) => 1
    | none =>
      match andC with
      | some (.mk (some subConditions)) => 1 + heightList subConditions
      | some (.mk none) => 1
      | none => 0

/-- Maximum `conditionHeight` over a list of subconditions. -/
def heightList : List OneOfCondition → Nat
  | [] => 0
  | c :: rest => max (conditionHeight c) (heightList rest)
end

/-- A chain of `k` nested `Or`/`And` nodes: the innermost is any
`Or`/`And` node (its subconditions are the arbitrary "leaf values"),
and each outer node is an `Or` or `And` whose child list is exactly the
next link. -/
inductive AndOrChain : Nat → OneOfCondition → Prop where
  | orBase (oc : OrCondition) (andC : Option AndCondition) (tru fls : Option Bool)
      (p : Option PercentCondition) (cs : Option CustomSignalCondition) :
      AndOrChain 1 (.mk (some oc) andC tru fls p cs)
  | andBase (ac : AndCondition) (tru fls : Option Bool)
      (p : Option PercentCondition) (cs : Option CustomSignalCondition) :
      AndOrChain 1 (.mk none (some ac) tru fls p cs)
  | orStep (k : Nat) (c : OneOfCondition) (andC : Option AndCondition)
      (tru fls : Option Bool) (p : Option PercentCondition) (cs : Option CustomSignalCondition) :
      AndOrChain k c → AndOrChain (k + 1) (.mk (some (.mk (some [c]))) andC tru fls p cs)
  | andStep (k : Nat) (c : OneOfCondition)
      (tru fls : Option Bool) (p : Option PercentCondition) (cs : Option CustomSignalCondition) :
      AndOrChain k c → AndOrChain (k + 1) (.mk none (some (.mk (some [c]))) tru fls p cs)

/-- First-occurrence deduplication of a list of names, with an
accumulator of names already seen. -/
def firstDedupAux : List String → List String → List String
  | [], _ => []
  | a :: l, seen => if a ∈ seen then firstDedupAux l seen else a :: firstDedupAux l (a :: seen)

/-- First-occurrence deduplication of a list of names: the subsequence
of first occurrences, in input order. -/
def firstDedup (l : List String) : List String := firstDedupAux l []

/-- Association-list lookup on the evaluation result (first binding
wins; the result map has unique keys). -/
def lookupStr (k : String) : List (String × Bool) → Option Bool
  | [] => none
  | p :: rest => if p.1 = k then some p.2 else lookupStr k rest

/-- The condition of the last occurrence of name `k` in a named
condition list. -/
def lastCondition : List NamedCondition → String → Option OneOfCondition
  | [], _ => none
  | nc :: rest, k =>
    match lastCondition rest k with
    | some c => some c
    | none => if nc.name = k then some nc.condition else none

/-- Regex environment with no valid pattern; usable wherever the claim
does not exercise regular expressions. -/
def rcNone : String → Option (String → Bool) := fun _ => none

/-- A fingerprint environment hashing everything to 0. -/
def fpZero : String → Nat := fun _ => 0

/-- The literal-`true` leaf `\x7b true: true \x7d`. -/
def trueLeaf : OneOfCondition := .mk none none (some true) none none none

/-- The literal-`false` leaf `\x7b false: true \x7d`. -/
def falseLeaf : OneOfCondition := .mk none none none (some true) none none

/-- An `Or` node with the given children and no other populated field. -/
def orNodeOf (cs : List OneOfCondition) : OneOfCondition :=
  .mk (some (.mk (some cs))) none none none none none

/-- An `And` node with the given children and no other populated field. -/
def andNodeOf (cs : List OneOfCondition) : OneOfCondition :=
  .mk none (some (.mk (some cs))) none none none none

/-- A chain of five `And` nodes around a `true` leaf: the leaf sits at
tree depth 5, so the evaluator reaches it at nesting level 10. -/
def andChain5 : OneOfCondition :=
  andNodeOf [andNodeOf [andNodeOf [andNodeOf [andNodeOf [trueLeaf]]]]]

deriving instance DecidableEq for Except

/-! Helper lemmas shared by several claims. -/

theorem evaluateCondition_cap {rc : String → Option (String → Bool)}
    {fp : String → Nat} {c : OneOfCondition} {ctx : EvaluationContext} {n : Nat}
    (h : 10 ≤ n) : evaluateCondition rc fp c ctx n = .ok false := by
  rw [evaluateCondition.eq_def]
  simp [h]

theorem evaluateCondition_orDispatch {rc : String → Option (String → Bool)}
    {fp : String → Nat} {oc : OrCondition} {andC : Option AndCondition}
    {tru fls : Option Bool} {p : Option PercentCondition}
    {cs : Option CustomSignalCondition} {ctx : EvaluationContext} {n : Nat}
    (h : n < 10) :
    evaluateCondition rc fp (.mk (some oc) andC tru fls p cs) ctx n =
      evaluateOrCondition rc fp oc ctx (n + 1) := by
  rw [evaluateCondition.eq_def]
  simp [Nat.not_le.mpr h]

theorem evaluateCondition_andDispatch {rc : String → Option (String → Bool)}
    {fp : String → Nat} {ac : AndCondition} {tru fls : Option Bool}
    {p : Option PercentCondition} {cs : Option CustomSignalCondition}
    {ctx : EvaluationContext} {n : Nat} (h : n < 10) :
    evaluateCondition rc fp (.mk none (some ac) tru fls p cs) ctx n =
      evaluateAndCondition rc fp ac ctx (n + 1) := by
  rw [evaluateCondition.eq_def]
  simp [Nat.not_le.mpr h]

theorem evaluateOrCondition_some {rc : String → Option (String → Bool)}
    {fp : String → Nat} {cs : List OneOfCondition} {ctx : EvaluationContext} {n : Nat} :
    evaluateOrCondition rc fp (.mk (some cs)) ctx n = goOr rc fp cs ctx n := by
  rw [evaluateOrCondition.eq_def]

theorem evaluateAndCondition_some {rc : String → Option (String → Bool)}
    {fp : String → Nat} {cs : List OneOfCondition} {ctx : EvaluationContext} {n : Nat} :
    evaluateAndCondition rc fp (.mk (some cs)) ctx n = goAnd rc fp cs ctx n := by
  rw [evaluateAndCondition.eq_def]

theorem goOr_eq_foldOr {rc : String → Option (String → Bool)} {fp : String → Nat}
    {ctx : EvaluationContext} {n : Nat} (cs : List OneOfCondition) :
    goOr rc fp cs ctx n = foldOr (cs.map (fun c => evaluateCondition rc fp c ctx (n + 1))) := by
  induction cs with
  | nil => rfl
  | cons c rest ih =>
    rw [goOr.eq_def]
    rcases h : evaluateCondition rc fp c ctx (n + 1) with e | b
    · simp [foldOr, h]
    · cases b <;> simp [foldOr, h, ih]

theorem goAnd_eq_foldAnd {rc : String → Option (String → Bool)} {fp : String → Nat}
    {ctx : EvaluationContext} {n : Nat} (cs : List OneOfCondition) :
    goAnd rc fp cs ctx n = foldAnd (cs.map (fun c => evaluateCondition rc fp c ctx (n + 1))) := by
  induction cs with
  | nil => rfl
  | cons c rest ih =>
    rw [goAnd.eq_def]
    rcases h : evaluateCondition rc fp c ctx (n + 1) with e | b
    · simp [foldAnd, h]
    · cases b <;> simp [foldAnd, h, ih]

theorem andOrChain_false {rc : String → Option (String → Bool)} {fp : String → Nat}
    {ctx : EvaluationContext} {k : Nat} {c : OneOfCondition} (hchain : AndOrChain k c) :
    ∀ n : Nat, 10 ≤ 2 * (k - 1) + n → evaluateCondition rc fp c ctx n = .ok false := by
  induction hchain with
  | orBase oc andC tru fls p cs =>
    intro n hn
    exact evaluateCondition_cap (by omega)
  | andBase ac tru fls p cs =>
    intro n hn
    exact evaluateCondition_cap (by omega)
  | orStep k c andC tru fls p cs hc ih =>
    intro n hn
    by_cases h10 : 10 ≤ n
    · exact evaluateCondition_cap h10
    · rw [evaluateCondition_orDispatch (by omega), evaluateOrCondition_some, goOr_eq_foldOr]
      simp [foldOr, ih (n + 1 + 1) (by omega)]
  | andStep k c tru fls p cs hc ih =>
    intro n hn
    by_cases h10 : 10 ≤ n
    · exact evaluateCondition_cap h10
    · rw [evaluateCondition_andDispatch (by omega), evaluateAndCondition_some, goAnd_eq_foldAnd]
      simp [foldAnd, ih (n + 1 + 1) (by omega)]

theorem conditionHeight_le_heightList {c : OneOfCondition} {cs : List OneOfCondition}
    (h : c ∈ cs) : conditionHeight c ≤ heightList cs := by
  induction cs with
  | nil => cases h
  | cons c2 rest ih =>
    rw [heightList.eq_def]
    rcases List.mem_cons.mp h with h1 | h2
    · subst h1; exact Nat.le_max_left _ _
    · exact le_trans (ih h2) (Nat.le_max_right _ _)

theorem goOr_eq_uncapped_of {rc : String → Option (String → Bool)} {fp : String → Nat}
    {ctx : EvaluationContext} {m : Nat} (cs : List OneOfCondition)
    (helem : ∀ c ∈ cs, evaluateCondition rc fp c ctx (m + 1) = evalUncapped rc fp c ctx) :
    goOr rc fp cs ctx m = goOrUncapped rc fp cs ctx := by
  induction cs with
  | nil => rfl
  | cons c rest ih =>
    have h1 : evaluateCondition rc fp c ctx (m + 1) = evalUncapped rc fp c ctx :=
      helem c (by simp)
    have ih2 := ih (fun c2 hc2 => helem c2 (by simp [hc2]))
    rw [goOr.eq_def, goOrUncapped.eq_def]
    rcases h : evalUncapped rc fp c ctx with e | b
    · simp [h1, h]
    · cases b <;> simp [h1, h, ih2]

theorem goAnd_eq_uncapped_of {rc : String → Option (String → Bool)} {fp : String → Nat}
    {ctx : EvaluationContext} {m : Nat} (cs : List OneOfCondition)
    (helem : ∀ c ∈ cs, evaluateCondition rc fp c ctx (m + 1) = evalUncapped rc fp c ctx) :
    goAnd rc fp cs ctx m = goAndUncapped rc fp cs ctx := by
  induction cs with
  | nil => rfl
  | cons c rest ih =>
    have h1 : evaluateCondition rc fp c ctx (m + 1) = evalUncapped rc fp c ctx :=
      helem c (by simp)
    have ih2 := ih (fun c2 hc2 => helem c2 (by simp [hc2]))
    rw [goAnd.eq_def, goAndUncapped.eq_def]
    rcases h : evalUncapped rc fp c ctx with e | b
    · simp [h1, h]
    · cases b <;> simp [h1, h, ih2]

theorem evaluateCondition_eq_uncapped {rc : String → Option (String → Bool)}
    {fp : String → Nat} {ctx : EvaluationContext} :
    ∀ (c : OneOfCondition) (n : Nat), n + 2 * conditionHeight c ≤ 9 →
      evaluateCondition rc fp c ctx n = evalUncapped rc fp c ctx := by
  suffices H : ∀ (K : Nat) (c : OneOfCondition), sizeOf c ≤ K → ∀ n : Nat,
      n + 2 * conditionHeight c ≤ 9 →
      evaluateCondition rc fp c ctx n = evalUncapped rc fp c ctx by
    exact fun c n h => H (sizeOf c) c le_rfl n h
  intro K
  induction K with
  | zero =>
    intro c hc
    exfalso
    obtain ⟨orC, andC, tru, fls, p, cs⟩ := c
    simp at hc
  | succ K ih =>
    intro c hc n hn
    obtain ⟨orC, andC, tru, fls, p, cs⟩ := c
    have hlt : n < 10 := by omega
    rcases orC with _ | ⟨conds⟩
    · rcases andC with _ | ⟨aconds⟩
      · rw [evaluateCondition.eq_def, evalUncapped.eq_def]
        simp [Nat.not_le.mpr hlt]
      · rcases aconds with _ | subs
        · rw [evaluateCondition_andDispatch hlt, evaluateAndCondition.eq_def,
            evalUncapped.eq_def]
        · rw [evaluateCondition_andDispatch hlt, evaluateAndCondition_some,
            evalUncapped.eq_def]
          have hh : conditionHeight (OneOfCondition.mk none (some (.mk (some subs))) tru fls p cs)
              = 1 + heightList subs := by
            rw [conditionHeight.eq_def]
          rw [hh] at hn
          have hrec : ∀ c2 ∈ subs,
              evaluateCondition rc fp c2 ctx (n + 1 + 1) = evalUncapped rc fp c2 ctx := by
            intro c2 hc2
            have hs1 : sizeOf c2 < sizeOf subs := List.sizeOf_lt_of_mem hc2
            have hs2 : sizeOf subs + 4 ≤ sizeOf
                (OneOfCondition.mk none (some (AndCondition.mk (some subs))) tru fls p cs) := by
              simp
              omega
            have hht := conditionHeight_le_heightList hc2
            exact ih c2 (by omega) (n + 1 + 1) (by omega)
          exact goAnd_eq_uncapped_of subs hrec
    · rcases conds with _ | subs
      · rw [evaluateCondition_orDispatch hlt, evaluateOrCondition.eq_def, evalUncapped.eq_def]
      · rw [evaluateCondition_orDispatch hlt, evaluateOrCondition_some, evalUncapped.eq_def]
        have hh : conditionHeight (OneOfCondition.mk (some (.mk (some subs))) andC tru fls p cs)
            = 1 + heightList subs := by
          rw [conditionHeight.eq_def]
        rw [hh] at hn
        have hrec : ∀ c2 ∈ subs,
            evaluateCondition rc fp c2 ctx (n + 1 + 1) = evalUncapped rc fp c2 ctx := by
          intro c2 hc2
          have hs1 : sizeOf c2 < sizeOf subs := List.sizeOf_lt_of_mem hc2
          have hs2 : sizeOf subs + 4 ≤ sizeOf
              (OneOfCondition.mk (some (OrCondition.mk (some subs))) andC tru fls p cs) := by
            simp
            omega
          have hht := conditionHeight_le_heightList hc2
          exact ih c2 (by omega) (n + 1 + 1) (by omega)
        exact goOr_eq_uncapped_of subs hrec

/-! Claim C1. -/

/-- C1 counterexample: the claim says children of an `Or`/`And` node are
evaluated at depth exactly one greater than the node, and that any tree
of nesting depth at most 10 evaluates without the cap firing.  Both
fail: an `Or` node entered at nesting level 8 evaluates its literal
`true` child at level 10, where the cap returns `false`; and a chain of
five `And` nodes around a `true` leaf (nesting depth 6) evaluates to
`false` although uncapped `And`-of-singleton semantics would give
`true`. -/
theorem C1_counterexample :
    evaluateCondition rcNone fpZero (orNodeOf [trueLeaf]) ([] : EvaluationContext) 8 =
      .ok false ∧
    evaluateCondition rcNone fpZero andChain5 ([] : EvaluationContext) 0 = .ok false ∧
    evalUncapped rcNone fpZero andChain5 ([] : EvaluationContext) = .ok true :=
  ⟨rfl, rfl, rfl⟩

/-- C1 (amended): a node at nesting level ≥ 10 evaluates to `false`
without its children being evaluated; the children of an `Or`/`And`
node are evaluated at nesting level exactly TWO greater than the node
itself (`evaluateCondition` passes `nestingLevel + 1` to the `Or`/`And`
evaluator, which passes `+ 1` again); consequently a chain of nested
`And`/`Or` nodes 6 or more deep (in particular 11 deep) evaluates to
`false` for the outermost call regardless of the leaf values, while any
tree whose nesting height `h` satisfies `n + 2 h ≤ 9` (from the root,
height at most 4) is evaluated exactly as by the uncapped evaluator. -/
theorem C1_depth_cap_semantics :
    (∀ (rc : String → Option (String → Bool)) (fp : String → Nat)
       (c : OneOfCondition) (ctx : EvaluationContext) (n : Nat), 10 ≤ n →
       evaluateCondition rc fp c ctx n = .ok false) ∧
    (∀ (rc : String → Option (String → Bool)) (fp : String → Nat)
       (ctx : EvaluationContext) (n : Nat) (subs : List OneOfCondition)
       (andC : Option AndCondition) (tru fls : Option Bool) (p : Option PercentCondition)
       (cs : Option CustomSignalCondition), n < 10 →
       evaluateCondition rc fp (.mk (some (.mk (some subs))) andC tru fls p cs) ctx n =
         foldOr (subs.map (fun c => evaluateCondition rc fp c ctx (n + 2)))) ∧
    (∀ (rc : String → Option (String → Bool)) (fp : String → Nat)
       (ctx : EvaluationContext) (n : Nat) (subs : List OneOfCondition)
       (tru fls : Option Bool) (p : Option PercentCondition)
       (cs : Option CustomSignalCondition), n < 10 →
       evaluateCondition rc fp (.mk none (some (.mk (some subs))) tru fls p cs) ctx n =
         foldAnd (subs.map (fun c => evaluateCondition rc fp c ctx (n + 2)))) ∧
    (∀ (rc : String → Option (String → Bool)) (fp : String → Nat)
       (ctx : EvaluationContext) (k : Nat) (c : OneOfCondition),
       AndOrChain k c → 6 ≤ k → evaluateCondition rc fp c ctx 0 = .ok false) ∧
    (∀ (rc : String → Option (String → Bool)) (fp : String → Nat)
       (ctx : EvaluationContext) (c : OneOfCondition) (n : Nat),
       n + 2 * conditionHeight c ≤ 9 →
       evaluateCondition rc fp c ctx n = evalUncapped rc fp c ctx) := by
  refine ⟨?_, ?_, ?_, ?_, ?_⟩
  · intro rc fp c ctx n h
    exact evaluateCondition_cap h
  · intro rc fp ctx n subs andC tru fls p cs h
    rw [evaluateCondition_orDispatch h, evaluateOrCondition_some, goOr_eq_foldOr]
  · intro rc fp ctx n subs tru fls p cs h
    rw [evaluateCondition_andDispatch h, evaluateAndCondition_some, goAnd_eq_foldAnd]
  · intro rc fp ctx k c hchain hk
    exact andOrChain_false hchain 0 (by omega)
  · intro rc fp ctx c n h
    exact evaluateCondition_eq_uncapped c n h

/-- C1 witness: the amended theorem applied at concrete inputs — the
cap at level 11, the two-greater child level on a singleton `Or` at the
root, the empty `And` node, a 6-deep `Or` chain, and a `true` leaf
evaluated at level 9 agreeing with the uncapped evaluator. -/
theorem C1_witness :
    evaluateCondition rcNone fpZero trueLeaf ([] : EvaluationContext) 11 = .ok false ∧
    evaluateCondition rcNone fpZero (orNodeOf [trueLeaf]) ([] : EvaluationContext) 0 =
      foldOr [evaluateCondition rcNone fpZero trueLeaf ([] : EvaluationContext) 2] ∧
    evaluateCondition rcNone fpZero (andNodeOf []) ([] : EvaluationContext) 0 = foldAnd [] ∧
    evaluateCondition rcNone fpZero
      (orNodeOf [orNodeOf [orNodeOf [orNodeOf [orNodeOf [orNodeOf []]]]]])
      ([] : EvaluationContext) 0 = .ok false ∧
    evaluateCondition rcNone fpZero trueLeaf ([] : EvaluationContext) 9 =
      evalUncapped rcNone fpZero trueLeaf ([] : EvaluationContext) := by
  have hchain : AndOrChain 6
      (orNodeOf [orNodeOf [orNodeOf [orNodeOf [orNodeOf [orNodeOf []]]]]]) :=
    .orStep _ _ _ _ _ _ _ (.orStep _ _ _ _ _ _ _ (.orStep _ _ _ _ _ _ _
      (.orStep _ _ _ _ _ _ _ (.orStep _ _ _ _ _ _ _
        (.orBase (.mk (some [])) none none none none none)))))
  refine ⟨C1_depth_cap_semantics.1 rcNone fpZero trueLeaf _ 11 (by omega),
    C1_depth_cap_semantics.2.1 rcNone fpZero _ 0 [trueLeaf] none none none none none
      (by omega),
    C1_depth_cap_semantics.2.2.1 rcNone fpZero _ 0 [] none none none none (by omega),
    C1_depth_cap_semantics.2.2.2.1 rcNone fpZero _ 6 _ hchain (by omega),
    C1_depth_cap_semantics.2.2.2.2 rcNone fpZero _ trueLeaf 9 (by decide)⟩

theorem foldOr_append_true (rs1 rs2 rs2' : List (Except Unit Bool)) :
    foldOr (rs1 ++ .ok true :: rs2) = foldOr (rs1 ++ .ok true :: rs2') := by
  induction rs1 with
  | nil => rfl
  | cons r rest ih =>
    rcases r with e | b
    · rfl
    · cases b <;> simp [foldOr, ih]

theorem foldAnd_append_false (rs1 rs2 rs2' : List (Except Unit Bool)) :
    foldAnd (rs1 ++ .ok false :: rs2) = foldAnd (rs1 ++ .ok false :: rs2') := by
  induction rs1 with
  | nil => rfl
  | cons r rest ih =>
    rcases r with e | b
    · rfl
    · cases b <;> simp [foldAnd, ih]

/-! Claim C7. -/

/-- C7: `Or`-node evaluation equals a left-to-right short-circuit fold
of its children's evaluations (first `true` wins, so the result does
not depend on children after the first `true` one; an empty or
exhausted list gives `false`), dually `And`-node evaluation returns
`false` at the first `false` child and `true` on an empty or exhausted
list; in particular `And([])` evaluates `true` and `Or([])` evaluates
`false`. -/
theorem C7_shortcircuit_fold :
    (∀ (rc : String → Option (String → Bool)) (fp : String → Nat)
       (cs : List OneOfCondition) (ctx : EvaluationContext) (n : Nat),
       evaluateOrCondition rc fp (.mk (some cs)) ctx n =
         foldOr (cs.map (fun c => evaluateCondition rc fp c ctx (n + 1)))) ∧
    (∀ (rc : String → Option (String → Bool)) (fp : String → Nat)
       (cs : List OneOfCondition) (ctx : EvaluationContext) (n : Nat),
       evaluateAndCondition rc fp (.mk (some cs)) ctx n =
         foldAnd (cs.map (fun c => evaluateCondition rc fp c ctx (n + 1)))) ∧
    (∀ (rc : String → Option (String → Bool)) (fp : String → Nat)
       (ctx : EvaluationContext) (n : Nat),
       evaluateOrCondition rc fp (.mk (some [])) ctx n = .ok false ∧
       evaluateAndCondition rc fp (.mk (some [])) ctx n = .ok true ∧
       evaluateCondition rc fp (orNodeOf []) ctx 0 = .ok false ∧
       evaluateCondition rc fp (andNodeOf []) ctx 0 = .ok true) ∧
    (∀ (rc : String → Option (String → Bool)) (fp : String → Nat)
       (ctx : EvaluationContext) (n : Nat) (cs1 cs2 cs2' : List OneOfCondition)
       (c : OneOfCondition), evaluateCondition rc fp c ctx (n + 1) = .ok true →
       evaluateOrCondition rc fp (.mk (some (cs1 ++ c :: cs2))) ctx n =
         evaluateOrCondition rc fp (.mk (some (cs1 ++ c :: cs2'))) ctx n) ∧
    (∀ (rc : String → Option (String → Bool)) (fp : String → Nat)
       (ctx : EvaluationContext) (n : Nat) (cs1 cs2 cs2' : List OneOfCondition)
       (c : OneOfCondition), evaluateCondition rc fp c ctx (n + 1) = .ok false →
       evaluateAndCondition rc fp (.mk (some (cs1 ++ c :: cs2))) ctx n =
         evaluateAndCondition rc fp (.mk (some (cs1 ++ c :: cs2'))) ctx n) := by
  refine ⟨?_, ?_, ?_, ?_, ?_⟩
  · intro rc fp cs ctx n
    rw [evaluateOrCondition_some, goOr_eq_foldOr]
  · intro rc fp cs ctx n
    rw [evaluateAndCondition_some, goAnd_eq_foldAnd]
  · intro rc fp ctx n
    exact ⟨rfl, rfl, rfl, rfl⟩
  · intro rc fp ctx n cs1 cs2 cs2' c h
    rw [evaluateOrCondition_some, evaluateOrCondition_some, goOr_eq_foldOr, goOr_eq_foldOr]
    simp only [List.map_append, List.map_cons, h]
    exact foldOr_append_true _ _ _
  · intro rc fp ctx n cs1 cs2 cs2' c h
    rw [evaluateAndCondition_some, evaluateAndCondition_some, goAnd_eq_foldAnd,
      goAnd_eq_foldAnd]
    simp only [List.map_append, List.map_cons, h]
    exact foldAnd_append_false _ _ _

/-- C7 witness: the theorem applied at concrete inputs — in particular
the independence parts at a list whose `true` (resp. `false`) child is
followed by different suffixes. -/
theorem C7_witness :
    evaluateOrCondition rcNone fpZero (.mk (some [falseLeaf, trueLeaf]))
        ([] : EvaluationContext) 0 =
      evaluateOrCondition rcNone fpZero (.mk (some [falseLeaf, trueLeaf, falseLeaf]))
        ([] : EvaluationContext) 0 ∧
    evaluateAndCondition rcNone fpZero (.mk (some [trueLeaf, falseLeaf]))
        ([] : EvaluationContext) 0 =
      evaluateAndCondition rcNone fpZero (.mk (some [trueLeaf, falseLeaf, trueLeaf]))
        ([] : EvaluationContext) 0 ∧
    evaluateOrCondition rcNone fpZero (.mk (some [falseLeaf, trueLeaf]))
        ([] : EvaluationContext) 0 =
      foldOr [evaluateCondition rcNone fpZero falseLeaf ([] : EvaluationContext) 1,
        evaluateCondition rcNone fpZero trueLeaf ([] : EvaluationContext) 1] :=
  ⟨C7_shortcircuit_fold.2.2.2.1 rcNone fpZero _ 0 [falseLeaf] [] [falseLeaf] trueLeaf rfl,
   C7_shortcircuit_fold.2.2.2.2 rcNone fpZero _ 0 [trueLeaf] [] [trueLeaf] falseLeaf rfl,
   C7_shortcircuit_fold.1 rcNone fpZero [falseLeaf, trueLeaf] _ 0⟩

theorem mapSet_keys (m : List (String × Bool)) (k : String) (v : Bool) :
    (mapSet m k v).map Prod.fst =
      if k ∈ m.map Prod.fst then m.map Prod.fst else m.map Prod.fst ++ [k] := by
  unfold mapSet
  by_cases h : k ∈ m.map Prod.fst
  · have ha : m.any (fun p => p.1 = k) = true := by
      simp only [List.any_eq_true, decide_eq_true_eq]
      obtain ⟨p, hp, he⟩ := List.mem_map.mp h
      exact ⟨p, hp, he⟩
    simp only [ha, if_true, if_pos h, List.map_map]
    refine List.map_congr_left (fun p hp => ?_)
    by_cases hpk : p.1 = k <;> simp [hpk]
  · have ha : m.any (fun p => p.1 = k) = false := by
      rw [List.any_eq_false]
      intro p hp
      simp only [decide_eq_true_eq]
      intro hpk
      exact h (List.mem_map.mpr ⟨p, hp, hpk⟩)
    simp only [ha, Bool.false_eq_true, if_false, List.map_append, List.map_cons, List.map_nil]
    rw [if_neg h]

theorem lookupStr_append_of_none (k : String) (l1 l2 : List (String × Bool))
    (h : lookupStr k l1 = none) : lookupStr k (l1 ++ l2) = lookupStr k l2 := by
  induction l1 with
  | nil => rfl
  | cons p rest ih =>
    by_cases hp : p.1 = k
    · simp [lookupStr, hp] at h
    · simp only [lookupStr, hp, if_neg hp] at h ⊢
      exact ih h

theorem lookupStr_append_of_some (k : String) (l1 l2 : List (String × Bool)) (v : Bool)
    (h : lookupStr k l1 = some v) : lookupStr k (l1 ++ l2) = some v := by
  induction l1 with
  | nil => simp [lookupStr] at h
  | cons p rest ih =>
    by_cases hp : p.1 = k
    · simp only [lookupStr, if_pos hp] at h ⊢
      exact h
    · simp only [lookupStr, if_neg hp] at h ⊢
      exact ih h

theorem any_false_lookupStr (m : List (String × Bool)) (k : String)
    (h : m.any (fun p => p.1 = k) = false) : lookupStr k m = none := by
  induction m with
  | nil => rfl
  | cons p rest ih =>
    simp only [List.any_cons, Bool.or_eq_false_iff, decide_eq_false_iff_not] at h
    simp only [lookupStr, if_neg h.1]
    exact ih h.2

theorem any_true_lookupStr (m : List (String × Bool)) (k : String)
    (h : m.any (fun p => p.1 = k) = true) : ∃ v, lookupStr k m = some v := by
  induction m with
  | nil => simp at h
  | cons p rest ih =>
    by_cases hp : p.1 = k
    · exact ⟨p.2, by simp [lookupStr, hp]⟩
    · simp only [List.any_cons, hp, decide_False, Bool.false_or] at h
      obtain ⟨v, hv⟩ := ih h
      exact ⟨v, by simp [lookupStr, hp, hv]⟩

theorem lookupStr_map_update (m : List (String × Bool)) (k : String) (v : Bool) :
    lookupStr k (m.map (fun p => if p.1 = k then (p.1, v) else p)) =
      (lookupStr k m).map (fun _ => v) := by
  induction m with
  | nil => rfl
  | cons p rest ih =>
    by_cases hp : p.1 = k
    · simp [lookupStr, hp]
    · simp only [List.map_cons, if_neg hp, lookupStr, ih]

theorem lookupStr_map_update_other (m : List (String × Bool)) (k k2 : String) (v : Bool)
    (h : k2 ≠ k) :
    lookupStr k2 (m.map (fun p => if p.1 = k then (p.1, v) else p)) = lookupStr k2 m := by
  induction m with
  | nil => rfl
  | cons p rest ih =>
    by_cases h2 : p.1 = k2
    · have h3 : p.1 ≠ k := by rw [h2]; exact h
      rw [List.map_cons, if_neg h3]
      simp only [lookupStr, ih]
    · by_cases h3 : p.1 = k
      · simp only [List.map_cons, if_pos h3, lookupStr, if_neg h2, ih]
      · simp only [List.map_cons, if_neg h3, lookupStr, if_neg h2, ih]

theorem lookupStr_mapSet_self (m : List (String × Bool)) (k : String) (v : Bool) :
    lookupStr k (mapSet m k v) = some v := by
  unfold mapSet
  cases ha : m.any (fun p => p.1 = k)
  · simp only [ha, Bool.false_eq_true, if_false]
    rw [lookupStr_append_of_none k m _ (any_false_lookupStr m k ha)]
    simp [lookupStr]
  · simp only [ha, if_true]
    rw [lookupStr_map_update]
    obtain ⟨v0, hv0⟩ := any_true_lookupStr m k ha
    rw [hv0]
    rfl

theorem lookupStr_mapSet_other (m : List (String × Bool)) (k k2 : String) (v : Bool)
    (h : k2 ≠ k) : lookupStr k2 (mapSet m k v) = lookupStr k2 m := by
  unfold mapSet
  cases ha : m.any (fun p => p.1 = k)
  · simp only [ha, Bool.false_eq_true, if_false]
    rcases hl : lookupStr k2 m with _ | v2
    · rw [lookupStr_append_of_none k2 m _ hl]
      show (if k = k2 then some v else none) = none
      rw [if_neg (Ne.symm h)]
    · exact lookupStr_append_of_some k2 m _ v2 hl
  · simp only [ha, if_true]
    exact lookupStr_map_update_other m k k2 v h

theorem firstDedupAux_congr (l : List String) : ∀ s1 s2 : List String,
    (∀ a, a ∈ s1 ↔ a ∈ s2) → firstDedupAux l s1 = firstDedupAux l s2 := by
  induction l with
  | nil => intro s1 s2 _; rfl
  | cons a rest ih =>
    intro s1 s2 hs
    by_cases h : a ∈ s1
    · simp only [firstDedupAux, if_pos h, if_pos ((hs a).mp h)]
      exact ih _ _ hs
    · have h2 : a ∉ s2 := fun hx => h ((hs a).mpr hx)
      simp only [firstDedupAux, if_neg h, if_neg h2]
      refine congrArg _ (ih _ _ (fun b => ?_))
      simp only [List.mem_cons]
      exact or_congr Iff.rfl (hs b)

theorem evalGo_keys {rc : String → Option (String → Bool)} {fp : String → Nat}
    {ctx : EvaluationContext} : ∀ (ncs : List NamedCondition) (acc m : List (String × Bool)),
    evaluateConditionsGo rc fp ctx ncs acc = .ok m →
    m.map Prod.fst =
      acc.map Prod.fst ++ firstDedupAux (ncs.map NamedCondition.name) (acc.map Prod.fst) := by
  intro ncs
  induction ncs with
  | nil =>
    intro acc m h
    simp only [evaluateConditionsGo, Except.ok.injEq] at h
    subst h
    simp [firstDedupAux]
  | cons nc rest ih =>
    intro acc m h
    rcases he : evaluateCondition rc fp nc.condition ctx 0 with e | b
    · simp only [evaluateConditionsGo, he] at h
      cases h
    · simp only [evaluateConditionsGo, he] at h
      have hkeys := ih (mapSet acc nc.name b) m h
      rw [hkeys, mapSet_keys]
      by_cases hk : nc.name ∈ acc.map Prod.fst
      · rw [if_pos hk]
        simp only [List.map_cons, firstDedupAux, if_pos hk]
      · rw [if_neg hk]
        simp only [List.map_cons, firstDedupAux, if_neg hk]
        rw [List.append_assoc]
        simp only [List.singleton_append, List.cons_append]
        refine congrArg _ (congrArg _ (firstDedupAux_congr _ _ _ (fun b2 => ?_)))
        simp only [List.mem_append, List.mem_cons, List.mem_singleton]
        tauto

theorem evalGo_lookup {rc : String → Option (String → Bool)} {fp : String → Nat}
    {ctx : EvaluationContext} : ∀ (ncs : List NamedCondition)
    (acc m : List (String × Bool)) (k : String),
    evaluateConditionsGo rc fp ctx ncs acc = .ok m →
    (lastCondition ncs k = none → lookupStr k m = lookupStr k acc) ∧
    (∀ (c : OneOfCondition) (b : Bool), lastCondition ncs k = some c →
      evaluateCondition rc fp c ctx 0 = .ok b → lookupStr k m = some b) := by
  intro ncs
  induction ncs with
  | nil =>
    intro acc m k h
    simp only [evaluateConditionsGo, Except.ok.injEq] at h
    subst h
    refine ⟨fun _ => rfl, fun c b hc _ => ?_⟩
    simp [lastCondition] at hc
  | cons nc rest ih =>
    intro acc m k h
    rcases he : evaluateCondition rc fp nc.condition ctx 0 with e | b0
    · simp only [evaluateConditionsGo, he] at h
      cases h
    · simp only [evaluateConditionsGo, he] at h
      have ihh := ih (mapSet acc nc.name b0) m k h
      constructor
      · intro hnone
        rcases hr : lastCondition rest k with _ | c'
        · have hne : nc.name ≠ k := by
            intro hh
            simp [lastCondition, hr, hh] at hnone
          rw [ihh.1 hr]
          exact lookupStr_mapSet_other acc nc.name k b0 (Ne.symm hne)
        · simp [lastCondition, hr] at hnone
      · intro c b hc hb
        rcases hr : lastCondition rest k with _ | c'
        · have hkeq : nc.name = k ∧ nc.condition = c := by
            by_cases hh : nc.name = k
            · simp only [lastCondition, hr, if_pos hh, Option.some.injEq] at hc
              exact ⟨hh, hc⟩
            · simp [lastCondition, hr, hh] at hc
          obtain ⟨hk1, hk2⟩ := hkeq
          have hb0 : b0 = b := by
            rw [hk2] at he
            rw [he] at hb
            injection hb
          rw [ihh.1 hr, ← hk1, hb0]
          exact lookupStr_mapSet_self acc nc.name b
        · have hcc : c' = c := by
            simp only [lastCondition, hr] at hc
            injection hc
          exact ihh.2 c b (by rw [hr, hcc]) hb

/-! Claim C6. -/

/-- C6: when `evaluateConditions` succeeds, the returned mapping lists
exactly one entry per distinct condition name, in input order (its key
sequence is the first-occurrence deduplication of the input name
sequence), and the value recorded for a name is the evaluation result
of that name's last occurrence (duplicate names overwrite, last write
wins). -/
theorem C6_evaluateConditions_map :
    ∀ (rc : String → Option (String → Bool)) (fp : String → Nat)
      (ncs : List NamedCondition) (ctx : EvaluationContext) (m : List (String × Bool)),
      evaluateConditions rc fp ncs ctx = .ok m →
      m.map Prod.fst = firstDedup (ncs.map NamedCondition.name) ∧
      (∀ (k : String) (c : OneOfCondition) (b : Bool), lastCondition ncs k = some c →
        evaluateCondition rc fp c ctx 0 = .ok b → lookupStr k m = some b) := by
  intro rc fp ncs ctx m h
  constructor
  · have := evalGo_keys ncs [] m h
    simpa [firstDedup] using this
  · intro k c b hc hb
    exact (evalGo_lookup ncs [] m k h).2 c b hc hb

/-- C6 witness: the theorem applied to the concrete list
`[("a", true-leaf), ("b", true-leaf), ("a", false-leaf)]` — the result
keeps first-occurrence order `["a", "b"]` and the duplicate name "a"
carries the result of its last occurrence, `false`. -/
theorem C6_witness :
    lookupStr "a" [("a", false), ("b", true)] = some false ∧
    [("a", false), ("b", true)].map Prod.fst = firstDedup ["a", "b", "a"] := by
  have h := C6_evaluateConditions_map rcNone fpZero
    [⟨"a", trueLeaf⟩, ⟨"b", trueLeaf⟩, ⟨"a", falseLeaf⟩] ([] : EvaluationContext)
    [("a", false), ("b", true)] rfl
  exact ⟨h.2 "a" falseLeaf false rfl rfl, h.1⟩

theorem evaluatePercentCondition_eq {fp : String → Nat} {pc : PercentCondition}
    {ctx : EvaluationContext} {rid : String} {op : PercentConditionOperator}
    (h1 : contextRandomizationId ctx = some rid) (h2 : rid ≠ "")
    (h3 : pc.percentOperator = some op) :
    evaluatePercentCondition fp pc ctx =
      match op with
      | .LESS_OR_EQUAL =>
        decide (instanceMicroPercentileOf fp pc.seed rid ≤ (pc.microPercent.getD 0 : Int))
      | .GREATER_THAN =>
        decide (instanceMicroPercentileOf fp pc.seed rid > (pc.microPercent.getD 0 : Int))
      | .BETWEEN =>
        decide (instanceMicroPercentileOf fp pc.seed rid >
          ((pc.microPercentRange.bind MicroPercentRange.microPercentLowerBound).getD 0 : Int)) &&
        decide (instanceMicroPercentileOf fp pc.seed rid ≤
          ((pc.microPercentRange.bind MicroPercentRange.microPercentUpperBound).getD 0 : Int))
      | .UNKNOWN => false := by
  simp only [evaluatePercentCondition, h1, h3]
  rw [if_neg h2]
  cases op <;> rfl

/-! Claim C4. -/

/-- C4: for a context with a non-empty `randomizationId`, the instance
micro-percentile is the (64-bit, wrapping) absolute value of the signed
64-bit fingerprint of `(seed ? seed + "." : "") + randomizationId`,
taken `mod 100_000_000` (truncated remainder); `LESS_OR_EQUAL` holds iff
percentile ≤ `microPercent` (default 0), `GREATER_THAN` iff
percentile > `microPercent`, `BETWEEN` iff
`lowerBound < percentile ≤ upperBound` (lower exclusive, upper
inclusive, both defaulting to 0), and `UNKNOWN` gives `false`. -/
theorem C4_percent_operator_semantics :
    ∀ (fp : String → Nat) (pc : PercentCondition) (ctx : EvaluationContext) (rid : String),
      contextRandomizationId ctx = some rid → rid ≠ "" →
      (instanceMicroPercentileOf fp pc.seed rid =
        Int.tmod
          (if toSigned64 (fp (seedPrefixOf pc.seed ++ rid)) < 0 then
            longNegate (toSigned64 (fp (seedPrefixOf pc.seed ++ rid)))
          else toSigned64 (fp (seedPrefixOf pc.seed ++ rid))) 100000000) ∧
      (pc.percentOperator = some .LESS_OR_EQUAL →
        evaluatePercentCondition fp pc ctx =
          decide (instanceMicroPercentileOf fp pc.seed rid ≤ (pc.microPercent.getD 0 : Int))) ∧
      (pc.percentOperator = some .GREATER_THAN →
        evaluatePercentCondition fp pc ctx =
          decide (instanceMicroPercentileOf fp pc.seed rid > (pc.microPercent.getD 0 : Int))) ∧
      (pc.percentOperator = some .BETWEEN →
        evaluatePercentCondition fp pc ctx =
          decide (((pc.microPercentRange.bind MicroPercentRange.microPercentLowerBound).getD 0
              : Int) < instanceMicroPercentileOf fp pc.seed rid ∧
            instanceMicroPercentileOf fp pc.seed rid ≤
              ((pc.microPercentRange.bind MicroPercentRange.microPercentUpperBound).getD 0
                : Int))) ∧
      (pc.percentOperator = some .UNKNOWN → evaluatePercentCondition fp pc ctx = false) := by
  intro fp pc ctx rid h1 h2
  refine ⟨rfl, ?_, ?_, ?_, ?_⟩
  · intro h3
    rw [evaluatePercentCondition_eq h1 h2 h3]
  · intro h3
    rw [evaluatePercentCondition_eq h1 h2 h3]
  · intro h3
    rw [evaluatePercentCondition_eq h1 h2 h3]
    simp
  · intro h3
    rw [evaluatePercentCondition_eq h1 h2 h3]

/-- C4 witness: the theorem applied to the fingerprint environment
hashing everything to 123456789 (percentile 23456789) with
`microPercent = 50000000`: `LESS_OR_EQUAL` holds, `GREATER_THAN` and
`UNKNOWN` do not. -/
theorem C4_witness :
    evaluatePercentCondition (fun _ => 123456789)
      ⟨some .LESS_OR_EQUAL, none, some 50000000, none⟩
      [("randomizationId", .str "user-42")] = true ∧
    evaluatePercentCondition (fun _ => 123456789)
      ⟨some .GREATER_THAN, none, some 50000000, none⟩
      [("randomizationId", .str "user-42")] = false ∧
    evaluatePercentCondition (fun _ => 123456789)
      ⟨some .UNKNOWN, none, some 50000000, none⟩
      [("randomizationId", .str "user-42")] = false := by
  refine ⟨?_, ?_, ?_⟩
  · rw [(C4_percent_operator_semantics (fun _ => 123456789)
      ⟨some .LESS_OR_EQUAL, none, some 50000000, none⟩
      [("randomizationId", .str "user-42")] "user-42" rfl (by decide)).2.1 rfl]
    decide
  · rw [(C4_percent_operator_semantics (fun _ => 123456789)
      ⟨some .GREATER_THAN, none, some 50000000, none⟩
      [("randomizationId", .str "user-42")] "user-42" rfl (by decide)).2.2.1 rfl]
    decide
  · rw [(C4_percent_operator_semantics (fun _ => 123456789)
      ⟨some .UNKNOWN, none, some 50000000, none⟩
      [("randomizationId", .str "user-42")] "user-42" rfl (by decide)).2.2.2.2 rfl]

/-! Claim C5. -/

/-- C5 counterexample: with a fingerprint environment hashing the
randomization id to 0 the instance micro-percentile is 0, and the
`BETWEEN` condition with bounds `0` and `100000000` evaluates `false`
(the lower bound is exclusive), although the claim says it always
matches. -/
theorem C5_counterexample :
    evaluatePercentCondition fpZero
      ⟨some .BETWEEN, none, none, some ⟨some 0, some 100000000⟩⟩
      [("randomizationId", .str "x")] = false ∧
    instanceMicroPercentileOf fpZero none "x" = 0 := ⟨by decide, by decide⟩

/-- C5 (amended): for every fingerprint environment, seed and context
with a non-empty `randomizationId`, the `BETWEEN` condition with
`microPercentLowerBound = 0` and `microPercentUpperBound = 100000000`
matches exactly when the instance micro-percentile is strictly
positive; the upper bound never rejects, as the percentile is always
below 100000000 — the cases it misses are percentile 0 (fingerprint
divisible by 100000000) and the negative-percentile edge of the
minimum signed 64-bit fingerprint. -/
theorem C5_between_full_range :
    ∀ (fp : String → Nat) (ctx : EvaluationContext) (rid : String) (seed : Option String)
      (mp : Option Nat),
      contextRandomizationId ctx = some rid → rid ≠ "" →
      instanceMicroPercentileOf fp seed rid < 100000000 ∧
      evaluatePercentCondition fp ⟨some .BETWEEN, seed, mp, some ⟨some 0, some 100000000⟩⟩
          ctx =
        decide (0 < instanceMicroPercentileOf fp seed rid) := by
  intro fp ctx rid seed mp h1 h2
  have hlt : instanceMicroPercentileOf fp seed rid < 100000000 := by
    unfold instanceMicroPercentileOf
    exact Int.tmod_lt_of_pos _ (by norm_num)
  refine ⟨hlt, ?_⟩
  rw [evaluatePercentCondition_eq h1 h2 rfl]
  show (decide (instanceMicroPercentileOf fp seed rid > ((0 : Nat) : Int)) &&
    decide (instanceMicroPercentileOf fp seed rid ≤ ((100000000 : Nat) : Int))) = _
  have hle : instanceMicroPercentileOf fp seed rid ≤ ((100000000 : Nat) : Int) := by
    omega
  simp only [decide_eq_true hle, Bool.and_true]
  norm_num

/-- C5 witness: the amended theorem applied to two concrete fingerprint
environments — hash 1 (percentile 1, matches) and hash 0 (percentile 0,
does not match). -/
theorem C5_witness :
    evaluatePercentCondition (fun _ => 1)
      ⟨some .BETWEEN, none, none, some ⟨some 0, some 100000000⟩⟩
      [("randomizationId", .str "x")] = true ∧
    evaluatePercentCondition (fun _ => 0)
      ⟨some .BETWEEN, none, none, some ⟨some 0, some 100000000⟩⟩
      [("randomizationId", .str "x")] = false := by
  constructor
  · rw [(C5_between_full_range (fun _ => 1) [("randomizationId", .str "x")] "x" none none
      rfl (by decide)).2]
    decide
  · rw [(C5_between_full_range (fun _ => 0) [("randomizationId", .str "x")] "x" none none
      rfl (by decide)).2]
    decide

/-! Claim C9. -/

/-- C9: when the unsigned 64-bit fingerprint is exactly 2^63, the signed
reading is the minimum 64-bit value, whose `Long` negation wraps back to
itself, so the "absolute value" stays negative and the truncated
remainder is the negative value -54775808; consequently
`LESS_OR_EQUAL` holds for every (nonnegative) `microPercent`, while
`GREATER_THAN` and `BETWEEN` (whose bounds are nonnegative) fail. -/
theorem C9_min_int64_wrap :
    ∀ (fp : String → Nat) (pc : PercentCondition) (ctx : EvaluationContext) (rid : String),
      contextRandomizationId ctx = some rid → rid ≠ "" →
      fp (seedPrefixOf pc.seed ++ rid) = 9223372036854775808 →
      instanceMicroPercentileOf fp pc.seed rid = -54775808 ∧
      instanceMicroPercentileOf fp pc.seed rid ≤ 0 ∧
      (pc.percentOperator = some .LESS_OR_EQUAL → evaluatePercentCondition fp pc ctx = true) ∧
      (pc.percentOperator = some .GREATER_THAN → evaluatePercentCondition fp pc ctx = false) ∧
      (pc.percentOperator = some .BETWEEN → evaluatePercentCondition fp pc ctx = false) := by
  intro fp pc ctx rid h1 h2 hfp
  have himp : instanceMicroPercentileOf fp pc.seed rid = -54775808 := by
    simp only [instanceMicroPercentileOf, hfp]
    decide
  refine ⟨himp, by rw [himp]; norm_num, ?_, ?_, ?_⟩
  · intro h3
    rw [evaluatePercentCondition_eq h1 h2 h3, himp]
    have : (-54775808 : Int) ≤ (pc.microPercent.getD 0 : Int) := by
      omega
    simp [this]
  · intro h3
    rw [evaluatePercentCondition_eq h1 h2 h3, himp]
    have : ¬((pc.microPercent.getD 0 : Int) < -54775808) := by
      omega
    simp [this]
  · intro h3
    rw [evaluatePercentCondition_eq h1 h2 h3, himp]
    have : ¬(((pc.microPercentRange.bind MicroPercentRange.microPercentLowerBound).getD 0
        : Int) < -54775808) := by
      omega
    simp [this]

/-- C9 witness: the theorem applied to the fingerprint environment
hashing everything to 2^63. -/
theorem C9_witness :
    instanceMicroPercentileOf (fun _ => 9223372036854775808) none "x" = -54775808 ∧
    evaluatePercentCondition (fun _ => 9223372036854775808)
      ⟨some .LESS_OR_EQUAL, none, some 0, none⟩ [("randomizationId", .str "x")] = true ∧
    evaluatePercentCondition (fun _ => 9223372036854775808)
      ⟨some .GREATER_THAN, none, some 99999999, none⟩
      [("randomizationId", .str "x")] = false := by
  refine ⟨(C9_min_int64_wrap (fun _ => 9223372036854775808)
      ⟨some .LESS_OR_EQUAL, none, some 0, none⟩ [("randomizationId", .str "x")] "x"
      rfl (by decide) rfl).1, ?_, ?_⟩
  · exact (C9_min_int64_wrap (fun _ => 9223372036854775808)
      ⟨some .LESS_OR_EQUAL, none, some 0, none⟩ [("randomizationId", .str "x")] "x"
      rfl (by decide) rfl).2.2.1 rfl
  · exact (C9_min_int64_wrap (fun _ => 9223372036854775808)
      ⟨some .GREATER_THAN, none, some 99999999, none⟩ [("randomizationId", .str "x")] "x"
      rfl (by decide) rfl).2.2.2.1 rfl

/-! Claim C8. -/

/-- C8: missing required data makes a node evaluate to `false` rather
than fail — a percent condition with no `randomizationId` in the
context, or with `percentOperator` absent or `UNKNOWN`, evaluates
`false`; a custom-signal condition with `customSignalOperator`,
`customSignalKey` or `targetCustomSignalValues` absent, with an empty
target list, or whose key is not bound in the context, evaluates
`false`. -/
theorem C8_missing_data_false :
    (∀ (fp : String → Nat) (pc : PercentCondition) (ctx : EvaluationContext),
      contextRandomizationId ctx = none → evaluatePercentCondition fp pc ctx = false) ∧
    (∀ (fp : String → Nat) (pc : PercentCondition) (ctx : EvaluationContext),
      pc.percentOperator = none → evaluatePercentCondition fp pc ctx = false) ∧
    (∀ (fp : String → Nat) (pc : PercentCondition) (ctx : EvaluationContext),
      pc.percentOperator = some .UNKNOWN → evaluatePercentCondition fp pc ctx = false) ∧
    (∀ (rc : String → Option (String → Bool)) (csc : CustomSignalCondition)
      (ctx : EvaluationContext),
      csc.customSignalOperator = none ∨ csc.customSignalKey = none ∨
        csc.targetCustomSignalValues = none →
      evaluateCustomSignalCondition rc csc ctx = .ok false) ∧
    (∀ (rc : String → Option (String → Bool)) (csc : CustomSignalCondition)
      (ctx : EvaluationContext),
      csc.targetCustomSignalValues = some [] →
      evaluateCustomSignalCondition rc csc ctx = .ok false) ∧
    (∀ (rc : String → Option (String → Bool)) (csc : CustomSignalCondition)
      (ctx : EvaluationContext) (key : String),
      csc.customSignalKey = some key → lookupContext ctx key = none →
      evaluateCustomSignalCondition rc csc ctx = .ok false) := by
  refine ⟨?_, ?_, ?_, ?_, ?_, ?_⟩
  · intro fp pc ctx h
    simp [evaluatePercentCondition, h]
  · intro fp pc ctx h
    rcases hr : contextRandomizationId ctx with _ | rid
    · simp [evaluatePercentCondition, hr]
    · simp [evaluatePercentCondition, hr, h]
  · intro fp pc ctx h
    rcases hr : contextRandomizationId ctx with _ | rid
    · simp [evaluatePercentCondition, hr]
    · simp [evaluatePercentCondition, hr, h]
  · intro rc csc ctx h
    obtain ⟨o, k, t⟩ := csc
    rcases h with h | h | h <;> simp only at h <;> subst h
    · rfl
    · rcases o with _ | op
      · rfl
      · rcases t with _ | ts <;> rfl
    · rcases o with _ | op
      · rfl
      · rcases k with _ | key <;> rfl
  · intro rc csc ctx h
    obtain ⟨o, k, t⟩ := csc
    simp only at h
    subst h
    rcases o with _ | op
    · rfl
    · rcases k with _ | key
      · rfl
      · simp [evaluateCustomSignalCondition]
  · intro rc csc ctx key hk hl
    obtain ⟨o, k, t⟩ := csc
    simp only at hk
    subst hk
    rcases o with _ | op
    · rfl
    · rcases t with _ | ts
      · rfl
      · simp [evaluateCustomSignalCondition, hl]

/-- C8 witness: the theorem applied at concrete inputs exercising each
missing-data path. -/
theorem C8_witness :
    evaluatePercentCondition fpZero ⟨some .LESS_OR_EQUAL, none, some 100000000, none⟩
      ([] : EvaluationContext) = false ∧
    evaluatePercentCondition fpZero ⟨none, none, some 100000000, none⟩
      [("randomizationId", .str "x")] = false ∧
    evaluatePercentCondition fpZero ⟨some .UNKNOWN, none, some 100000000, none⟩
      [("randomizationId", .str "x")] = false ∧
    evaluateCustomSignalCondition rcNone ⟨none, some "k", some ["a"]⟩
      ([] : EvaluationContext) = .ok false ∧
    evaluateCustomSignalCondition rcNone ⟨some .STRING_CONTAINS, some "k", some []⟩
      [("k", .str "abc")] = .ok false ∧
    evaluateCustomSignalCondition rcNone ⟨some .STRING_CONTAINS, some "k", some ["a"]⟩
      ([] : EvaluationContext) = .ok false :=
  ⟨C8_missing_data_false.1 fpZero _ _ rfl,
   C8_missing_data_false.2.1 fpZero _ _ rfl,
   C8_missing_data_false.2.2.1 fpZero _ _ rfl,
   C8_missing_data_false.2.2.2.1 rcNone _ _ (Or.inl rfl),
   C8_missing_data_false.2.2.2.2.1 rcNone _ _ rfl,
   C8_missing_data_false.2.2.2.2.2 rcNone _ _ "k" rfl rfl⟩

/-! Claim C2. -/

/-- C2 (code bug in the source): the `STRING_CONTAINS_REGEX` branch
builds `new RegExp(target)` with no try/catch, so in a regex
environment where the pattern `"("` fails to compile, a condition
targeting `"("` makes `evaluateCustomSignalCondition` raise instead of
treating the target as no match, and the error propagates out of
`evaluateConditions`, aborting the whole evaluation — against the
spec's never-throw principle. -/
theorem C2_regex_throw :
    evaluateCustomSignalCondition
      (fun s => if s = "(" then none else some (fun _ => false))
      ⟨some .STRING_CONTAINS_REGEX, some "k", some ["("]⟩ [("k", .str "abc")] =
      .error () ∧
    evaluateConditions (fun s => if s = "(" then none else some (fun _ => false)) fpZero
      [⟨"c", .mk none none none none none
        (some ⟨some .STRING_CONTAINS_REGEX, some "k", some ["("]⟩)⟩]
      [("k", .str "abc")] = .error () := ⟨rfl, rfl⟩

/-! Claim C3. -/

/-- C3 counterexample: the claim says actual `"1.2"` versus target
`"1.2.0"` under `SEMANTIC_VERSION_EQUAL` evaluates `true`; the source
returns the predicate applied to `-1` as soon as the left side runs out
of segments while the right still has one, so the evaluation is
`false`. -/
theorem C3_counterexample :
    evaluateCustomSignalCondition rcNone
      ⟨some .SEMANTIC_VERSION_EQUAL, some "k", some ["1.2.0"]⟩ [("k", .str "1.2")] =
      .ok false := by decide

/-- C3 (amended): semantic-version operators split both sides on `.`
and coerce every segment with `Number`; any `NaN` segment on either
side makes the result `false`; otherwise the predicate is applied to
the segmentwise comparison, where the first differing index decides the
order and, at exhaustion of one side with the other non-empty, the
shorter version counts as strictly smaller (so `"1.2.3" < "1.2.4"`
under `SEMANTIC_VERSION_LESS_THAN` is `true`, while `"1.2"` versus
`"1.2.0"` is `false` under `SEMANTIC_VERSION_EQUAL` and `true` under
`SEMANTIC_VERSION_LESS_THAN`). -/
theorem C3_semver_semantics :
    (∀ (a : SignalValue) (t : String) (pred : Int → Bool),
      ((splitOnDot (jsToString a).data).map
          (fun seg => jsStringToNumber (String.mk seg))).any (fun x => x.isNone) = true ∨
      ((splitOnDot t.data).map
          (fun seg => jsStringToNumber (String.mk seg))).any (fun x => x.isNone) = true →
      compareSemanticVersions a t pred = false) ∧
    (∀ (a : SignalValue) (t : String) (pred : Int → Bool),
      ((splitOnDot (jsToString a).data).map
          (fun seg => jsStringToNumber (String.mk seg))).any (fun x => x.isNone) = false →
      ((splitOnDot t.data).map
          (fun seg => jsStringToNumber (String.mk seg))).any (fun x => x.isNone) = false →
      compareSemanticVersions a t pred =
        pred (semverCompare
          (((splitOnDot (jsToString a).data).map
            (fun seg => jsStringToNumber (String.mk seg))).filterMap id)
          (((splitOnDot t.data).map
            (fun seg => jsStringToNumber (String.mk seg))).filterMap id))) ∧
    (∀ (common as bs : List JSNumber) (x y : JSNumber), x ≠ y →
      semverCompare (common ++ x :: as) (common ++ y :: bs) =
        if x.ltb y then -1 else 1) ∧
    (∀ l : List JSNumber, semverCompare l l = 0) ∧
    (∀ (common rest : List JSNumber) (x : JSNumber),
      semverCompare common (common ++ x :: rest) = -1 ∧
      semverCompare (common ++ x :: rest) common = 1) ∧
    evaluateCustomSignalCondition rcNone
      ⟨some .SEMANTIC_VERSION_LESS_THAN, some "k", some ["1.2.4"]⟩
      [("k", .str "1.2.3")] = .ok true ∧
    evaluateCustomSignalCondition rcNone
      ⟨some .SEMANTIC_VERSION_EQUAL, some "k", some ["1.2.0"]⟩
      [("k", .str "1.2")] = .ok false ∧
    evaluateCustomSignalCondition rcNone
      ⟨some .SEMANTIC_VERSION_LESS_THAN, some "k", some ["1.2.0"]⟩
      [("k", .str "1.2")] = .ok true := by
  refine ⟨?_, ?_, ?_, ?_, ?_, by decide, by decide, by decide⟩
  · intro a t pred h
    rcases h with h | h <;> simp [compareSemanticVersions, h]
  · intro a t pred h1 h2
    simp [compareSemanticVersions, h1, h2]
  · intro common as bs x y hne
    induction common with
    | nil => simp [semverCompare, hne]
    | cons c cs ih => simp [semverCompare, ih]
  · intro l
    induction l with
    | nil => rfl
    | cons x xs ih => simp [semverCompare, ih]
  · intro common rest x
    induction common with
    | nil => exact ⟨rfl, rfl⟩
    | cons c cs ih => simpa [semverCompare] using ih

/-- C3 witness: the amended theorem applied at concrete inputs — a
`NaN` segment on the actual side, the no-`NaN` reduction, and a first
differing index inside `[1, 2, 3]` versus `[1, 2, 4]`. -/
theorem C3_witness :
    compareSemanticVersions (.str "a") "1" (fun r => decide (r = 0)) = false ∧
    compareSemanticVersions (.str "1.2.3") "1.2.4" (fun r => decide (r < 0)) =
      decide ((semverCompare [.val 1, .val 2, .val 3] [.val 1, .val 2, .val 4] : Int) < 0) ∧
    semverCompare [.val 1, .val 2, .val 3] [.val 1, .val 2, .val 4] = -1 := by
  refine ⟨C3_semver_semantics.1 (.str "a") "1" _ (Or.inl (by decide)), ?_, ?_⟩
  · have h := C3_semver_semantics.2.1 (.str "1.2.3") "1.2.4" (fun r => decide (r < 0))
      (by decide) (by decide)
    rw [h]
    decide
  · have h := C3_semver_semantics.2.2.1 [JSNumber.val 1, JSNumber.val 2] [] []
      (JSNumber.val 3) (JSNumber.val 4) (by decide)
    rw [show ([JSNumber.val 1, JSNumber.val 2] ++ [JSNumber.val 3])
        = [JSNumber.val 1, JSNumber.val 2, JSNumber.val 3] from rfl,
      show ([JSNumber.val 1, JSNumber.val 2] ++ [JSNumber.val 4])
        = [JSNumber.val 1, JSNumber.val 2, JSNumber.val 4] from rfl] at h
    rw [h]
    decide

/-! Claim C10. -/

/-- C10: numeric and semantic-version comparisons coerce with
JavaScript `Number`, under which the empty string and whitespace-only
strings coerce to 0 instead of failing to parse: `NUMERIC_EQUAL` with
actual `""` and target `"0"` evaluates `true`, and the empty segment of
actual `"1..2"` is treated as 0, so it equals `"1.0.2"` under
`SEMANTIC_VERSION_EQUAL` rather than making the result `false`. -/
theorem C10_number_coercion :
    jsStringToNumber "" = some (.val 0) ∧
    jsStringToNumber "   " = some (.val 0) ∧
    evaluateCustomSignalCondition rcNone ⟨some .NUMERIC_EQUAL, some "k", some ["0"]⟩
      [("k", .str "")] = .ok true ∧
    evaluateCustomSignalCondition rcNone
      ⟨some .SEMANTIC_VERSION_EQUAL, some "k", some ["1.0.2"]⟩
      [("k", .str "1..2")] = .ok true := ⟨by decide, by decide, by decide, by decide⟩
